import Mathlib

/-!
# Verification of the tiny-basic-compiler front-end core

Shallow embedding of the repository's two engines:

* the grammar engine (`src/grammar/grammar.rs`, `src/grammar/rule/mod.rs`,
  with the identifier service of `src/parser/rule/id.rs`, the module the
  grammar code re-exports as `id`): shift/greedy-reduce parsing of a token
  stream against substitution rules;
* the lexical pipeline (`src/lexer/lexer.rs`, `src/lexer/mod.rs`,
  `src/lexer/lexer_modules/string_lexer_module.rs`): an ordered chain of
  token recognizers over an input stream.

Rust `Vec` stacks are Lean `List`s with the bottom of the stack at the head
and pushes at the end, matching `Vec::push`/`Vec::pop`.  Machine `usize`
values are `Nat`.  Recognizer objects (`Box<dyn LexerModule>`) are embedded
as pure functions from the remaining input to a `LexerModuleResult`; every
recognizer shipped in the repository is stateless, so this is faithful.
Rust's `unreachable!()` is modelled by an `Option` layer: `none` means the
panic branch was reached.
-/

namespace TinyBasic

/-- `Id` from `src/parser/rule/id.rs`: a pair of the issuing generator's
scope (`generator_id`) and a per-generator sequence number (`id`).
Equality is derived field-wise, as Rust's `#[derive(PartialEq, Eq)]`. -/
structure Id where
  generator_id : Nat
  id : Nat
deriving DecidableEq

/-- `IdGenerator` from `src/parser/rule/id.rs`: the scope `id` obtained from
the global atomic counter at creation, and the next sequence number `idx`. -/
structure IdGenerator where
  id : Nat
  idx : Nat
deriving DecidableEq

/-- `IdGenerator::new`.  The Rust code reads a process-wide atomic counter
with `fetch_add(1)`; the embedding passes that counter explicitly: given the
counter's current value it returns the fresh generator and the new counter
value. -/
def IdGenerator.new (globalCounter : Nat) : IdGenerator × Nat :=
  (⟨globalCounter, 0⟩, globalCounter + 1)

/-- `IdGenerator::id` (named `nextId` here because the Rust method shares its
name with the `id` field): returns the identifier built from the generator's
scope and current `idx`, and the generator with `idx` advanced by one. -/
def IdGenerator.nextId (g : IdGenerator) : Id × IdGenerator :=
  (⟨g.id, g.idx⟩, ⟨g.id, g.idx + 1⟩)

/-- The generator state after `k` calls of `IdGenerator::id`. -/
def IdGenerator.afterCalls (g : IdGenerator) : Nat → IdGenerator
  | 0 => g
  | k + 1 => (IdGenerator.afterCalls g k).nextId.2

/-- The identifier returned by the `(k+1)`-th call of `IdGenerator::id` on a
generator initially in state `g`. -/
def IdGenerator.nthId (g : IdGenerator) (k : Nat) : Id :=
  (IdGenerator.afterCalls g k).nextId.1

/-- `GrammarTree` from `src/grammar/mod.rs`.  The Rust `Node` variant holds a
`GrammarNodeData { symbol, children }`; the two fields are inlined into the
constructor (children are `Vec<Box<GrammarTree>>`, the boxes disappear). -/
inductive GrammarTree (τ : Type) where
  | Leaf : τ → GrammarTree τ
  | Node : Id → List (GrammarTree τ) → GrammarTree τ

/-- `SymbolSchema` from `src/grammar/rule/mod.rs`: a `Terminating` symbol
wraps a token predicate (`&dyn Fn(&L) -> bool`), a `Nonterminating` symbol
wraps an `Id`. -/
inductive SymbolSchema (τ : Type) where
  | Terminating : (τ → Bool) → SymbolSchema τ
  | Nonterminating : Id → SymbolSchema τ

/-- `Rule` from `src/grammar/rule/mod.rs`: a left-hand `input_symbol` and the
ordered right-hand `replacement_symbols`. -/
structure Rule (τ : Type) where
  input_symbol : Id
  replacement_symbols : List (SymbolSchema τ)

/-- `Rule::new`. -/
def Rule.new (input_symbol : Id) (τ : Type) : Rule τ :=
  ⟨input_symbol, []⟩

/-- `Rule::add_nonterminating_symbol`: appends a `Nonterminating` schema. -/
def Rule.add_nonterminating_symbol (r : Rule τ) (symbol : Id) : Rule τ :=
  { r with replacement_symbols :=
      r.replacement_symbols ++ [SymbolSchema.Nonterminating symbol] }

/-- `Rule::add_terminating_symbol`: appends a `Terminating` schema. -/
def Rule.add_terminating_symbol (r : Rule τ) (recognizer : τ → Bool) : Rule τ :=
  { r with replacement_symbols :=
      r.replacement_symbols ++ [SymbolSchema.Terminating recognizer] }

/-- The pairwise check in the loop body of `Rule::matches`: the `match` over
`(symbol_schema, symbol_instance)` at src/grammar/rule/mod.rs lines 76-82. -/
def schemaMatches : SymbolSchema τ → GrammarTree τ → Bool
  | SymbolSchema.Terminating func, GrammarTree.Leaf token => func token
  | SymbolSchema.Terminating _, GrammarTree.Node _ _ => false
  | SymbolSchema.Nonterminating _, GrammarTree.Leaf _ => false
  | SymbolSchema.Nonterminating i, GrammarTree.Node s _ => i = s

/-- `Rule::matches`: false when the lengths differ, otherwise the pairwise
conjunction over `replacement_symbols.iter().zip(rhs)` (short-circuiting, as
`List.all` is). -/
def Rule.matches (r : Rule τ) (rhs : List (GrammarTree τ)) : Bool :=
  if r.replacement_symbols.length ≠ rhs.length then false
  else (r.replacement_symbols.zip rhs).all fun p => schemaMatches p.1 p.2

/-- `GrammarBuilder` from `src/grammar/grammar.rs`. -/
structure GrammarBuilder (τ : Type) where
  id_generator : IdGenerator
  starting_rule : Option (Rule τ)
  rules : List (Rule τ)

/-- `Grammar` from `src/grammar/grammar.rs`. -/
structure Grammar (τ : Type) where
  id_generator : IdGenerator
  default_rule : Rule τ
  rules : List (Rule τ)

/-- `GrammarBuilder::new` (the embedded `IdGenerator::new` threads the global
counter, so the builder's constructor does too). -/
def GrammarBuilder.new (τ : Type) (globalCounter : Nat) :
    GrammarBuilder τ × Nat :=
  let p := IdGenerator.new globalCounter
  (⟨p.1, none, []⟩, p.2)

/-- `GrammarBuilder::add_rule`: the first rule added becomes
`starting_rule`, every later one is appended to `rules`. -/
def GrammarBuilder.add_rule (b : GrammarBuilder τ) (rule : Rule τ) :
    GrammarBuilder τ :=
  match b.starting_rule with
  | none => { b with starting_rule := some rule }
  | some _ => { b with rules := b.rules ++ [rule] }

/-- `GrammarBuilder::build`: `starting_rule?` makes the whole construction
`None` exactly when no starting rule was ever set. -/
def GrammarBuilder.build (b : GrammarBuilder τ) : Option (Grammar τ) :=
  match b.starting_rule with
  | none => none
  | some d => some ⟨b.id_generator, d, b.rules⟩

/-- Adding a list of rules in order, starting from a given builder. -/
def GrammarBuilder.add_rules (b : GrammarBuilder τ) (rs : List (Rule τ)) :
    GrammarBuilder τ :=
  rs.foldl GrammarBuilder.add_rule b

/-- `Grammar::rules` (named `rulesList`, the Rust method shares its name with
the field): `iter::once(&self.default_rule).chain(self.rules.iter())`. -/
def Grammar.rulesList (g : Grammar τ) : List (Rule τ) :=
  g.default_rule :: g.rules

/-- `Vec::pop` on a stack whose top is the last list element. -/
def popTop (s : List α) : Option (α × List α) :=
  match s.getLast? with
  | none => none
  | some x => some (x, s.dropLast)

/-- The pop loop of `Grammar::parse` (src/grammar/grammar.rs lines 143-151):
pop `n` times, pushing each popped node onto `children`; `none` models
reaching the `unreachable!()` branch on an empty pop. -/
def popLoop : Nat → List (GrammarTree τ) → List (GrammarTree τ) →
    Option (List (GrammarTree τ) × List (GrammarTree τ))
  | 0, children, stack => some (children, stack)
  | n + 1, children, stack =>
    match popTop stack with
    | none => none
    | some (top, rest) => popLoop n (children ++ [top]) rest

/-- The inner double loop of `Grammar::parse` (lines 124-172): for `i`
counting up from `start` for `fuel` steps, find the first rule (in the given
order) matching the stack suffix `stack.drop i`; the first hit wins. -/
def searchReduction (rules : List (Rule τ)) (stack : List (GrammarTree τ)) :
    Nat → Nat → Option (Nat × Rule τ)
  | 0, _ => none
  | fuel + 1, i =>
    match rules.find? (fun r => r.matches (stack.drop i)) with
    | some r => some (i, r)
    | none => searchReduction rules stack fuel (i + 1)

/-- The reduction search `for i in 0..input_stack.len()` of `Grammar::parse`,
returning the drop count and the winning rule. -/
def findReduction (rules : List (Rule τ)) (stack : List (GrammarTree τ)) :
    Option (Nat × Rule τ) :=
  searchReduction rules stack stack.length 0

/-- One iteration of the `for next_symbol in input_stream` loop of
`Grammar::parse`: push the shifted leaf, search for a reduction, and on a
winning match pop the matched suffix and push the new node.  `none` models
the `unreachable!()` panic. -/
def shiftReduceStep (g : Grammar τ) (stack0 : List (GrammarTree τ))
    (next_symbol : τ) : Option (List (GrammarTree τ)) :=
  let stack := stack0 ++ [GrammarTree.Leaf next_symbol]
  match findReduction g.rulesList stack with
  | none => some stack
  | some (i, r) =>
    match popLoop (stack.drop i).length [] stack with
    | none => none
    | some (children, rest) =>
      some (rest ++ [GrammarTree.Node r.input_symbol children])

/-- The whole token loop of `Grammar::parse`, from a given working stack. -/
def parseLoop (g : Grammar τ) : List τ → List (GrammarTree τ) →
    Option (List (GrammarTree τ))
  | [], stack => some stack
  | t :: ts, stack =>
    match shiftReduceStep g stack t with
    | none => none
    | some s => parseLoop g ts s

/-- `Grammar::parse`: run the token loop on an empty stack and return
`input_stack.pop()` (the last element, if any).  The outer `Option` models
the `unreachable!()` panic; the inner one is the Rust return value. -/
def Grammar.parse (g : Grammar τ) (input : List τ) :
    Option (Option (GrammarTree τ)) :=
  (parseLoop g input []).map fun s => s.getLast?

/-- `LexerModuleResult` from `src/lexer/mod.rs`, over input-unit type `σ` and
token type `τ`.  `TokenSuccess` inlines `LexerModuleSuccessResult`'s two
fields (the produced token and the unconsumed remainder); the diagnostic of
`TokenFailed` (an `anyhow::Error`) is its message string. -/
inductive LexerModuleResult (σ τ : Type) where
  | TokenSuccess : τ → List σ → LexerModuleResult σ τ
  | TokenIgnored : LexerModuleResult σ τ
  | TokenFailed : String → LexerModuleResult σ τ
deriving DecidableEq

/-- `LexerModuleResult::is_success`. -/
def LexerModuleResult.is_success : LexerModuleResult σ τ → Bool
  | LexerModuleResult.TokenSuccess _ _ => true
  | _ => false

/-- `LexerModuleResult::is_ignored`. -/
def LexerModuleResult.is_ignored : LexerModuleResult σ τ → Bool
  | LexerModuleResult.TokenIgnored => true
  | _ => false

/-- `LexerModuleResult::is_failure`. -/
def LexerModuleResult.is_failure : LexerModuleResult σ τ → Bool
  | LexerModuleResult.TokenFailed _ => true
  | _ => false

/-- A `LexerModule` (`Box<dyn LexerModule>`): its `parse_stream` method as a
pure function over the remaining input. -/
def LexerModule (σ τ : Type) : Type :=
  List σ → LexerModuleResult σ τ

/-- `TokenIterator::try_each_lexer`: try each module in list order; the first
result that is not `TokenIgnored` is returned, `TokenIgnored` if all of them
ignore the input. -/
def tryEachLexer (modules : List (LexerModule σ τ)) (stream : List σ) :
    LexerModuleResult σ τ :=
  match modules with
  | [] => LexerModuleResult.TokenIgnored
  | m :: rest =>
    let result := m stream
    if result.is_ignored then tryEachLexer rest stream else result

/-- `TokenIterator::try_parse_first_token`: one recognition attempt at the
current position, returning the yielded item (if any) and the new value of
`input_stream`.  On `TokenFailed` the Rust function returns *before* the
`self.input_stream = remainder` assignment, so the stream is left unchanged;
on `TokenIgnored` one input unit is discarded; on `TokenSuccess` the stream
becomes the recognizer-supplied remainder. -/
def tryParseFirstToken (modules : List (LexerModule σ τ))
    (input : List σ) : Option (Except String τ) × List σ :=
  match tryEachLexer modules input with
  | LexerModuleResult.TokenFailed e => (some (Except.error e), input)
  | LexerModuleResult.TokenIgnored => (none, input.drop 1)
  | LexerModuleResult.TokenSuccess t rem => (some (Except.ok t), rem)

/-- `TokenIterator::parse_stream` (the body of `Iterator::next`): loop until
the stream is empty (`none`: iteration ends) or an item is produced; the pair
holds the yielded item and the `input_stream` state left for the next call. -/
def parseStream (modules : List (LexerModule σ τ)) :
    List σ → Option (Except String τ × List σ)
  | [] => none
  | u :: rest =>
    match tryEachLexer modules (u :: rest) with
    | LexerModuleResult.TokenFailed e => some (Except.error e, u :: rest)
    | LexerModuleResult.TokenSuccess t rem => some (Except.ok t, rem)
    | LexerModuleResult.TokenIgnored => parseStream modules rest

/-- Repeatedly pulling items from the token iterator, with explicit fuel
bounding the number of `next()` calls (the Rust sequence need not be finite:
see the failed-outcome behaviour of `tryParseFirstToken`). -/
def lexItems (modules : List (LexerModule σ τ)) :
    Nat → List σ → List (Except String τ)
  | 0, _ => []
  | fuel + 1, input =>
    match parseStream modules input with
    | none => []
    | some (item, rest) => item :: lexItems modules fuel rest

/-- The `Token` enum of `src/lexer/token.rs` (variables as their 0-25 code,
numbers as `Nat` for `usize`). -/
inductive Token where
  | Keyword : Nat → Token
  | Variable : Nat → Token
  | Number : Nat → Token
  | String : String → Token
  | Symbol : Nat → Token
  | NewLine : Token
deriving DecidableEq

/-- `StringLexerModule::parse_stream` from
`src/lexer/lexer_modules/string_lexer_module.rs`: ignore unless the stream
starts with `"`; then find the closing quote in the rest — `TokenFailed` if
there is none, otherwise a `Token::String` of the contents with the input
after the closing quote as remainder. -/
def stringLexerModule : LexerModule Char Token :=
  fun stream =>
    match stream with
    | '"' :: rest =>
      match rest.findIdx? (fun c => c = '"') with
      | none => LexerModuleResult.TokenFailed "Expected closing \" character!"
      | some p =>
        LexerModuleResult.TokenSuccess (Token.String (String.mk (rest.take p)))
          (rest.drop (p + 1))
    | _ => LexerModuleResult.TokenIgnored

/-- Test fixture: the symbol issued by the first `id()` call of a fresh
generator created when the global counter was 0. -/
def demoId : Id :=
  ⟨0, 0⟩

/-- Test fixture: a one-symbol rule `demoId -> a` whose terminal predicate
accepts every token. -/
def demoRule : Rule Nat :=
  ⟨demoId, [SymbolSchema.Terminating fun _ => true]⟩

/-- Test fixture: a grammar with `demoRule` as its only (default) rule. -/
def demoGrammar : Grammar Nat :=
  ⟨⟨0, 1⟩, demoRule, []⟩

/-- Test fixture: the input `"a"  "b"` — two quoted strings separated by two
spaces that no recognizer claims. -/
def ignoredSkippingInput : List Char :=
  ['"', 'a', '"', ' ', ' ', '"', 'b', '"']

/-- Test fixture: the input `"abc` — an unterminated quoted literal. -/
def unterminatedStringInput : List Char :=
  ['"', 'a', 'b', 'c']

/-! ## Helper lemmas -/

theorem afterCalls_eq (g : IdGenerator) (k : Nat) :
    IdGenerator.afterCalls g k = ⟨g.id, g.idx + k⟩ := by
  induction k with
  | zero => cases g; rfl
  | succ k ih => simp [IdGenerator.afterCalls, ih, IdGenerator.nextId, Nat.add_assoc]

theorem nthId_eq (g : IdGenerator) (k : Nat) :
    IdGenerator.nthId g k = ⟨g.id, g.idx + k⟩ := by
  simp [IdGenerator.nthId, afterCalls_eq, IdGenerator.nextId]

theorem add_rules_of_some (gen : IdGenerator) (d : Rule τ)
    (l rs : List (Rule τ)) :
    GrammarBuilder.add_rules ⟨gen, some d, l⟩ rs = ⟨gen, some d, l ++ rs⟩ := by
  induction rs generalizing l with
  | nil => simp [GrammarBuilder.add_rules]
  | cons r rest ih =>
    show GrammarBuilder.add_rules
        (GrammarBuilder.add_rule ⟨gen, some d, l⟩ r) rest = _
    rw [show GrammarBuilder.add_rule ⟨gen, some d, l⟩ r
        = ⟨gen, some d, l ++ [r]⟩ from rfl, ih]
    simp

/-! ## Claim theorems: identifier service and grammar builder -/

/-- C6.  Identifiers carry the generator scope and a sequence number that
starts at 0 and advances by one per call, so two identifiers of one
generator are equal iff issued at the same call; the creation path hands the
next generator a strictly larger counter value, and generators with distinct
scope values never issue equal identifiers even at equal sequence numbers. -/
theorem c6_identifier_scoping (c c' k k' : Nat) :
    (IdGenerator.new c).2 = c + 1 ∧
    IdGenerator.nthId (IdGenerator.new c).1 k = ⟨c, k⟩ ∧
    (IdGenerator.nthId (IdGenerator.new c).1 k =
        IdGenerator.nthId (IdGenerator.new c).1 k' ↔ k = k') ∧
    (c ≠ c' →
      IdGenerator.nthId (IdGenerator.new c).1 k ≠
        IdGenerator.nthId (IdGenerator.new c').1 k') := by
  refine ⟨rfl, by simp [nthId_eq, IdGenerator.new], ?_, ?_⟩
  · simp [nthId_eq, IdGenerator.new, Id.mk.injEq]
  · intro hcc
    simp [nthId_eq, IdGenerator.new, Id.mk.injEq]
    intro h
    exact absurd h hcc

/-- C9.  `GrammarBuilder::build` returns `none` iff no rule was ever added;
with at least one rule added it returns the grammar whose default rule is
the first rule and whose additional rules are the later ones in insertion
order (an absent result, never a panic: `build` is total). -/
theorem c9_builder_build (τ : Type) (c : Nat) (rs : List (Rule τ)) :
    (((GrammarBuilder.new τ c).1.add_rules rs).build = none ↔ rs = []) ∧
    ∀ r rest, rs = r :: rest →
      ((GrammarBuilder.new τ c).1.add_rules rs).build =
        some ⟨(IdGenerator.new c).1, r, rest⟩ := by
  cases rs with
  | nil =>
    refine ⟨by simp [GrammarBuilder.new, GrammarBuilder.add_rules,
      GrammarBuilder.build], ?_⟩
    intro r rest h
    cases h
  | cons r rest =>
    have hstep : (GrammarBuilder.new τ c).1.add_rules (r :: rest)
        = ⟨(IdGenerator.new c).1, some r, rest⟩ := by
      show GrammarBuilder.add_rules
          (GrammarBuilder.add_rule ⟨(IdGenerator.new c).1, none, []⟩ r) rest = _
      rw [show GrammarBuilder.add_rule ⟨(IdGenerator.new c).1, none, []⟩ r
          = ⟨(IdGenerator.new c).1, some r, []⟩ from rfl]
      rw [add_rules_of_some]
      simp
    refine ⟨by simp [hstep, GrammarBuilder.build], ?_⟩
    intro r' rest' h
    cases h
    simp [hstep, GrammarBuilder.build]

theorem is_ignored_iff (r : LexerModuleResult σ τ) :
    r.is_ignored = true ↔ r = LexerModuleResult.TokenIgnored := by
  cases r <;> simp [LexerModuleResult.is_ignored]

/-- `parseStream` is the Rust loop over `try_parse_first_token`: on a
non-empty stream, one attempt either yields an item together with the new
stream state, or (all modules ignored) consumed one unit, and the loop goes
round again on the shortened stream. -/
theorem parseStream_eq_tryParseFirstToken
    (modules : List (LexerModule σ τ)) (u : σ) (rest : List σ) :
    parseStream modules (u :: rest) =
      (match tryParseFirstToken modules (u :: rest) with
        | (some item, s') => some (item, s')
        | (none, s') => parseStream modules s') := by
  rw [parseStream, tryParseFirstToken]
  cases tryEachLexer modules (u :: rest) <;> rfl

/-! ## Claim theorems: lexical pipeline -/

/-- C7.  `try_each_lexer` returns `TokenIgnored` iff every module returns
`TokenIgnored`; and whenever the module list splits as
`pre ++ m :: post` with every module of `pre` ignoring the input and `m`
not ignoring it, the pipeline's outcome at this position is exactly `m`'s
result — the modules after `m` are not consulted. -/
theorem c7_first_non_ignored (modules : List (LexerModule σ τ))
    (stream : List σ) :
    (tryEachLexer modules stream = LexerModuleResult.TokenIgnored ↔
      ∀ m ∈ modules, m stream = LexerModuleResult.TokenIgnored) ∧
    ∀ pre m post, modules = pre ++ m :: post →
      (∀ m' ∈ pre, m' stream = LexerModuleResult.TokenIgnored) →
      m stream ≠ LexerModuleResult.TokenIgnored →
      tryEachLexer modules stream = m stream := by
  constructor
  · induction modules with
    | nil => simp [tryEachLexer]
    | cons m rest ih =>
      by_cases h : (m stream).is_ignored = true
      · have hm := (is_ignored_iff _).mp h
        have hstep : tryEachLexer (m :: rest) stream
            = tryEachLexer rest stream := by
          show (if (m stream).is_ignored then tryEachLexer rest stream
            else m stream) = _
          rw [if_pos h]
        rw [hstep, ih]
        simp [hm]
      · have hm : m stream ≠ LexerModuleResult.TokenIgnored := by
          intro he
          exact h ((is_ignored_iff _).mpr he)
        have hstep : tryEachLexer (m :: rest) stream = m stream := by
          show (if (m stream).is_ignored then tryEachLexer rest stream
            else m stream) = _
          rw [if_neg h]
        rw [hstep]
        constructor
        · intro he
          exact absurd he hm
        · intro hall
          exact absurd (hall m (by simp)) hm
  · intro pre
    induction pre generalizing modules with
    | nil =>
      intro m post hmod hpre hm
      cases hmod
      have h : (m stream).is_ignored ≠ true := by
        intro hi
        exact hm ((is_ignored_iff _).mp hi)
      simp [tryEachLexer, h]
    | cons p pre' ih =>
      intro m post hmod hpre hm
      cases hmod
      have hp : (p stream).is_ignored = true :=
        (is_ignored_iff _).mpr (hpre p (by simp))
      have hstep : tryEachLexer (p :: (pre' ++ m :: post)) stream
          = tryEachLexer (pre' ++ m :: post) stream := by
        show (if (p stream).is_ignored
          then tryEachLexer (pre' ++ m :: post) stream else p stream) = _
        rw [if_pos hp]
      rw [List.cons_append, hstep]
      exact ih (pre' ++ m :: post) m post rfl
        (fun m' hm' => hpre m' (by simp [hm'])) hm

/-- C8.  When every recognizer returns `TokenIgnored` on a non-empty input,
`parse_stream` discards exactly one input unit and retries from the new
position without yielding anything; concretely, the input `"a"  "b"` (two
quoted strings separated by two unclaimed spaces) lexes to exactly the two
string tokens, with no synthetic token for the skipped characters. -/
theorem c8_ignored_skipping (σ τ : Type) :
    (∀ (modules : List (LexerModule σ τ)) (u : σ) (rest : List σ),
        tryEachLexer modules (u :: rest) = LexerModuleResult.TokenIgnored →
        parseStream modules (u :: rest) = parseStream modules rest) ∧
    lexItems [stringLexerModule] 5 ignoredSkippingInput =
      [Except.ok (Token.String "a"), Except.ok (Token.String "b")] := by
  constructor
  · intro modules u rest h
    simp [parseStream, h]
  · rfl

/-- C3 is false of the code (a bug in `try_parse_first_token`): on
`TokenFailed` the function returns before the `self.input_stream =
remainder` assignment, so the stream is left unchanged and the iterator is
not marked finished.  On the unterminated literal `"abc` the first `next()`
yields the diagnostic with the input stream unchanged, and the following
pulls each yield the same diagnostic again — the sequence does not end after
the one error item. -/
theorem c3_failed_outcome_repeats :
    tryParseFirstToken [stringLexerModule] unterminatedStringInput =
      (some (Except.error "Expected closing \" character!"),
        unterminatedStringInput) ∧
    parseStream [stringLexerModule] unterminatedStringInput =
      some (Except.error "Expected closing \" character!",
        unterminatedStringInput) ∧
    lexItems [stringLexerModule] 3 unterminatedStringInput =
      [Except.error "Expected closing \" character!",
       Except.error "Expected closing \" character!",
       Except.error "Expected closing \" character!"] := by
  exact ⟨rfl, rfl, rfl⟩

/-! ## Claim theorems: rule matching -/

/-- C2.  `Rule::matches` holds iff the right-hand-side length equals the
candidate length and every schema/node pair matches position-wise; a
`Terminating` schema against a `Leaf` tests the predicate, and every
kind-mismatched pairing, as well as a `Nonterminating` schema against a
`Node`, follows the pairwise table of the `match` in the source. -/
theorem c2_rule_matches (r : Rule τ) (rhs : List (GrammarTree τ)) :
    (r.matches rhs = true ↔
      r.replacement_symbols.length = rhs.length ∧
      ∀ (i : Nat) (h1 : i < r.replacement_symbols.length)
        (h2 : i < rhs.length),
        schemaMatches r.replacement_symbols[i] rhs[i] = true) ∧
    (∀ (f : τ → Bool) (t : τ),
      schemaMatches (SymbolSchema.Terminating f) (GrammarTree.Leaf t) = f t) ∧
    (∀ (f : τ → Bool) (s : Id) (c : List (GrammarTree τ)),
      schemaMatches (SymbolSchema.Terminating f) (GrammarTree.Node s c)
        = false) ∧
    (∀ (n : Id) (t : τ),
      schemaMatches (SymbolSchema.Nonterminating n) (GrammarTree.Leaf t)
        = false) ∧
    (∀ (n s : Id) (c : List (GrammarTree τ)),
      schemaMatches (SymbolSchema.Nonterminating n) (GrammarTree.Node s c)
        = decide (n = s)) := by
  refine ⟨?_, fun f t => rfl, fun f s c => rfl, fun n t => rfl,
    fun n s c => rfl⟩
  rw [Rule.matches]
  by_cases hlen : r.replacement_symbols.length = rhs.length
  · rw [if_neg (fun hne => hne hlen), List.all_eq_true]
    constructor
    · intro h
      refine ⟨hlen, ?_⟩
      intro i h1 h2
      have hmem : (r.replacement_symbols[i], rhs[i])
          ∈ r.replacement_symbols.zip rhs := by
        rw [List.mem_iff_getElem]
        refine ⟨i, ?_, ?_⟩
        · rw [List.length_zip]
          omega
        · rw [List.getElem_zip]
      exact h _ hmem
    · rintro ⟨-, h⟩ p hp
      rw [List.mem_iff_getElem] at hp
      obtain ⟨i, hi, rfl⟩ := hp
      rw [List.length_zip] at hi
      rw [List.getElem_zip]
      exact h i (by omega) (by omega)
  · rw [if_pos hlen]
    simp [hlen]

theorem searchReduction_some (rules : List (Rule τ))
    (stack : List (GrammarTree τ)) :
    ∀ (fuel i j : Nat) (r : Rule τ),
      searchReduction rules stack fuel i = some (j, r) ↔
        i ≤ j ∧ j < i + fuel ∧
        rules.find? (fun r' => r'.matches (stack.drop j)) = some r ∧
        ∀ k, i ≤ k → k < j →
          rules.find? (fun r' => r'.matches (stack.drop k)) = none := by
  intro fuel
  induction fuel with
  | zero =>
    intro i j r
    constructor
    · intro h
      exact absurd h (by simp [searchReduction])
    · rintro ⟨h1, h2, -, -⟩
      exact absurd h2 (by omega)
  | succ fuel ih =>
    intro i j r
    rw [searchReduction]
    cases hf : rules.find? (fun r' => r'.matches (stack.drop i)) with
    | some r0 =>
      constructor
      · intro h
        obtain ⟨rfl, rfl⟩ : i = j ∧ r0 = r := by
          have := Option.some.inj h
          exact ⟨congrArg Prod.fst this, congrArg Prod.snd this⟩
        exact ⟨Nat.le_refl _, by omega, hf, fun k hk1 hk2 => by omega⟩
      · rintro ⟨h1, h2, h3, h4⟩
        rcases Nat.eq_or_lt_of_le h1 with rfl | hlt
        · rw [hf] at h3
          rw [Option.some.inj h3]
        · have := h4 i (Nat.le_refl _) hlt
          rw [hf] at this
          cases this
    | none =>
      rw [ih (i + 1) j r]
      constructor
      · rintro ⟨h1, h2, h3, h4⟩
        refine ⟨by omega, by omega, h3, ?_⟩
        intro k hk1 hk2
        rcases Nat.eq_or_lt_of_le hk1 with rfl | h
        · exact hf
        · exact h4 k h hk2
      · rintro ⟨h1, h2, h3, h4⟩
        have hij : i ≠ j := by
          rintro rfl
          rw [hf] at h3
          cases h3
        exact ⟨by omega, by omega, h3, fun k hk1 hk2 => h4 k (by omega) hk2⟩

/-! ## Claim theorems: reduction search order -/

/-- C1.  The reduction search after a shift succeeds with drop count `i` and
rule `r` iff `i` is a valid position (`i < stack.length`, i.e. `i` ranges
over `0 .. stack.length - 1`, longest suffix first), no rule at all matches
any longer suffix (`j < i`), and `r` is the first rule in grammar iteration
order (`rulesList` = default rule, then insertion order) whose `matches`
succeeds on the suffix `stack.drop i`. -/
theorem c1_reduction_search_order (g : Grammar τ)
    (stack : List (GrammarTree τ)) (i : Nat) (r : Rule τ) :
    findReduction g.rulesList stack = some (i, r) ↔
      i < stack.length ∧
      (∀ j, j < i → ∀ r' ∈ g.rulesList,
        r'.matches (stack.drop j) = false) ∧
      r.matches (stack.drop i) = true ∧
      ∃ pre post, g.rulesList = pre ++ r :: post ∧
        ∀ r' ∈ pre, r'.matches (stack.drop i) = false := by
  rw [findReduction, searchReduction_some]
  constructor
  · rintro ⟨-, h2, h3, h4⟩
    rw [List.find?_eq_some] at h3
    obtain ⟨hr, pre, post, hsplit, hpre⟩ := h3
    refine ⟨by omega, ?_, hr, pre, post, hsplit, ?_⟩
    · intro j hj r' hr'
      have := h4 j (Nat.zero_le _) hj
      rw [List.find?_eq_none] at this
      simpa using this r' hr'
    · intro r' hr'
      simpa using hpre r' hr'
  · rintro ⟨h1, h2, h3, pre, post, hsplit, hpre⟩
    refine ⟨Nat.zero_le _, by omega, ?_, ?_⟩
    · rw [List.find?_eq_some]
      exact ⟨h3, pre, post, hsplit, fun a ha => by simpa using hpre a ha⟩
    · intro k hk1 hk2
      rw [List.find?_eq_none]
      intro r' hr'
      simpa using h2 k hk2 r' hr'

theorem popTop_concat (ys : List (GrammarTree τ)) (y : GrammarTree τ) :
    popTop (ys ++ [y]) = some (y, ys) := by
  simp [popTop, List.getLast?_concat, List.dropLast_concat]

theorem popLoop_spec (n : Nat) :
    ∀ (stack children : List (GrammarTree τ)), n ≤ stack.length →
      popLoop n children stack =
        some (children ++ stack.reverse.take n,
          (stack.reverse.drop n).reverse) := by
  induction n with
  | zero =>
    intro stack children h
    simp [popLoop]
  | succ n ih =>
    intro stack children h
    rcases List.eq_nil_or_concat' stack with rfl | ⟨ys, y, rfl⟩
    · simp at h
    · rw [popLoop, popTop_concat]
      show popLoop n (children ++ [y]) ys = _
      rw [ih ys (children ++ [y]) (by simp at h; omega)]
      simp

theorem popLoop_drop (stack : List (GrammarTree τ)) (i : Nat)
    (h : i ≤ stack.length) :
    popLoop (stack.drop i).length [] stack =
      some ((stack.drop i).reverse, stack.take i) := by
  rw [popLoop_spec _ _ _ (by rw [List.length_drop]; omega)]
  have hlen : stack.length - (stack.drop i).length = i := by
    rw [List.length_drop]
    omega
  congr 1
  rw [List.take_reverse, List.drop_reverse, hlen, List.nil_append,
    List.reverse_reverse]

/-! ## Claim theorems: applying a reduction -/

/-- C4.  When the search on the post-shift stack finds drop count `i` and
rule `r`, the engine pops exactly the matched suffix (`stack.drop i`), the
new node's children are the pops in order — the reverse of the suffix's
left-to-right order — the node carries `r`'s left-hand `input_symbol`, it is
pushed onto the remaining stack, and the step performs exactly this one
reduction for the shifted token. -/
theorem c4_winning_reduction (g : Grammar τ)
    (stack0 : List (GrammarTree τ)) (tok : τ) (i : Nat) (r : Rule τ)
    (h : findReduction g.rulesList (stack0 ++ [GrammarTree.Leaf tok])
      = some (i, r)) :
    shiftReduceStep g stack0 tok =
      some ((stack0 ++ [GrammarTree.Leaf tok]).take i ++
        [GrammarTree.Node r.input_symbol
          ((stack0 ++ [GrammarTree.Leaf tok]).drop i).reverse]) := by
  have hi : i < (stack0 ++ [GrammarTree.Leaf tok]).length := by
    have := ((searchReduction_some g.rulesList _ _ 0 i r).mp h).2.1
    omega
  show (match findReduction g.rulesList (stack0 ++ [GrammarTree.Leaf tok])
      with
    | none => some (stack0 ++ [GrammarTree.Leaf tok])
    | some (i, r) =>
      match popLoop ((stack0 ++ [GrammarTree.Leaf tok]).drop i).length []
          (stack0 ++ [GrammarTree.Leaf tok]) with
      | none => none
      | some (children, rest) =>
        some (rest ++ [GrammarTree.Node r.input_symbol children])) = _
  rw [h]
  show (match popLoop ((stack0 ++ [GrammarTree.Leaf tok]).drop i).length []
      (stack0 ++ [GrammarTree.Leaf tok]) with
    | none => none
    | some (children, rest) =>
      some (rest ++ [GrammarTree.Node r.input_symbol children])) = _
  rw [popLoop_drop _ i (Nat.le_of_lt hi)]

/-- Closed instance of C4: the one-rule demo grammar reduces the single
shifted leaf `5` at drop count 0 with its default rule. -/
theorem c4_winning_reduction_witness :
    shiftReduceStep demoGrammar [] 5 =
      some ((([] : List (GrammarTree Nat))
          ++ [GrammarTree.Leaf 5]).take 0 ++
        [GrammarTree.Node demoRule.input_symbol
          ((([] : List (GrammarTree Nat))
            ++ [GrammarTree.Leaf 5]).drop 0).reverse]) :=
  c4_winning_reduction demoGrammar [] 5 0 demoRule rfl

theorem shiftReduceStep_isSome (g : Grammar τ)
    (stack : List (GrammarTree τ)) (t : τ) :
    ∃ s, shiftReduceStep g stack t = some s ∧ s ≠ [] := by
  show ∃ s, (match findReduction g.rulesList
      (stack ++ [GrammarTree.Leaf t]) with
    | none => some (stack ++ [GrammarTree.Leaf t])
    | some (i, r) =>
      match popLoop ((stack ++ [GrammarTree.Leaf t]).drop i).length []
          (stack ++ [GrammarTree.Leaf t]) with
      | none => none
      | some (children, rest) =>
        some (rest ++ [GrammarTree.Node r.input_symbol children]))
    = some s ∧ s ≠ []
  cases hf : findReduction g.rulesList (stack ++ [GrammarTree.Leaf t]) with
  | none => exact ⟨_, rfl, by simp⟩
  | some ir =>
    obtain ⟨i, r⟩ := ir
    have hi : i < (stack ++ [GrammarTree.Leaf t]).length := by
      have := ((searchReduction_some g.rulesList _ _ 0 i r).mp hf).2.1
      omega
    show ∃ s, (match popLoop
        ((stack ++ [GrammarTree.Leaf t]).drop i).length []
        (stack ++ [GrammarTree.Leaf t]) with
      | none => none
      | some (children, rest) =>
        some (rest ++ [GrammarTree.Node r.input_symbol children]))
      = some s ∧ s ≠ []
    rw [popLoop_drop _ i (Nat.le_of_lt hi)]
    exact ⟨_, rfl, by simp⟩

theorem parseLoop_total (g : Grammar τ) :
    ∀ (input : List τ) (stack : List (GrammarTree τ)),
      ∃ s, parseLoop g input stack = some s ∧
        (input = [] → s = stack) ∧
        (input ≠ [] ∨ stack ≠ [] → s ≠ []) := by
  intro input
  induction input with
  | nil =>
    intro stack
    refine ⟨stack, rfl, fun _ => rfl, ?_⟩
    rintro (h | h)
    · exact absurd rfl h
    · exact h
  | cons t ts ih =>
    intro stack
    obtain ⟨s1, hs1, hne1⟩ := shiftReduceStep_isSome g stack t
    obtain ⟨s, hs, -, hne⟩ := ih s1
    refine ⟨s, ?_, ?_, ?_⟩
    · rw [parseLoop, hs1]
      exact hs
    · intro h
      cases h
    · exact fun _ => hne (Or.inr hne1)

/-! ## Claim theorems: parse termination and the unreachable branch -/

/-- C5.  After the input is exhausted `Grammar::parse` returns
`input_stack.pop()` — `some` of the node on top of the final working stack,
or `none` when that stack is empty — and the stack is empty exactly when the
input token sequence was empty, so parsing an empty sequence returns no
tree for any grammar.  (The outer `some` records that the panic branch was
not reached.) -/
theorem c5_parse_returns_top (g : Grammar τ) (input : List τ) :
    (∃ s, parseLoop g input [] = some s ∧
      g.parse input = some s.getLast?) ∧
    (g.parse input = some none ↔ input = []) := by
  obtain ⟨s, hs, hnil, hne⟩ := parseLoop_total g input []
  refine ⟨⟨s, hs, by rw [Grammar.parse, hs, Option.map_some']⟩, ?_, ?_⟩
  · intro h
    by_contra hin
    have hsne : s ≠ [] := hne (Or.inl hin)
    rw [Grammar.parse, hs, Option.map_some'] at h
    have : s.getLast? = none := Option.some.inj h
    exact hsne (List.getLast?_eq_none_iff.mp this)
  · rintro rfl
    rw [Grammar.parse, hs, Option.map_some', hnil rfl]
    rfl

/-- C10.  The `unreachable!()` branch of the pop loop is never executed: the
matched suffix is a slice of the working stack itself, so the stack always
holds at least as many nodes as the pops the reduction performs, every
`pop()` returns `Some`, and `Grammar::parse` never reaches the modelled
panic (`parse` never returns the outer `none`). -/
theorem c10_unreachable_never_hit (g : Grammar τ) (input : List τ) :
    (g.parse input).isSome = true := by
  obtain ⟨s, hs, -, -⟩ := parseLoop_total g input []
  rw [Grammar.parse, hs, Option.map_some']
  rfl

end TinyBasic
